import Mathlib

/-!
Shallow embedding of `internal/repository/memory.go`: the in-memory
repository (`InMemoryRepository`) and its stream handle
(`nodeReaderWriter`).  Go strings are modelled as `List Char`, byte
slices as `List Nat`, and Go's `map[string][]byte` as an association
list (`List (MemPath × Blob)`); `len` of the map is the list length, as the
keys of a reachable store are unique.  Methods with a pointer receiver
are translated into explicit state passing: each operation takes the
repository (and handle) and returns the updated values.  A Go runtime
panic (out-of-range index) is modelled by an `Option` result of `none`.
-/

set_option autoImplicit false

abbrev MemPath : Type := List Char

abbrev Blob : Type := List Nat

/-- Modelled from the spec (§6, §7): the error taxonomy of the repository
operations. `invalidPath` stands for the `fmt.Errorf("invalid path ...")`
values, `notFound` for the `"not present"` / `"no such path"` values. -/
inductive RepoErr : Type where
  | invalidPath : RepoErr
  | notFound : RepoErr
  deriving DecidableEq, Repr

/-- Modelled from the spec (§6): `fyne.URI` is external to the sources; per
the spec a URI carries a scheme and a path, and `storage.ParseURI` of
`scheme://path` reconstructs the URI with that scheme and path. -/
structure URI : Type where
  scheme : List Char
  path : List Char
  deriving DecidableEq, Repr

/-- Modelled from the spec (§6): `storage.ParseURI (scheme + "://" + p)`,
which the code uses to materialize URIs for `List` results; it always
succeeds on the scheme/path pairs the store produces. -/
def parseSchemePath (scheme p : List Char) : URI := ⟨scheme, p⟩

/-- Go map lookup `m[k]` on the association-list model. -/
def lookupData : List (MemPath × Blob) → MemPath → Option Blob
  | [], _ => none
  | (k', v) :: rest, k => if k' = k then some v else lookupData rest k

/-- Go map assignment `m[k] = v`: replace the binding if the key is
present, otherwise add it. -/
def updateData : List (MemPath × Blob) → MemPath → Blob → List (MemPath × Blob)
  | [], k, v => [(k, v)]
  | (k', v') :: rest, k, v =>
    if k' = k then (k, v) :: rest else (k', v') :: updateData rest k v

/-- Go `delete(m, k)`: remove the binding for `k`. -/
def eraseData : List (MemPath × Blob) → MemPath → List (MemPath × Blob)
  | [], _ => []
  | (k', v) :: rest, k =>
    if k' = k then eraseData rest k else (k', v) :: eraseData rest k

/-- `InMemoryRepository` from `memory.go`: the `Data` map and the scheme. -/
structure InMemoryRepository : Type where
  Data : List (MemPath × Blob)
  scheme : List Char
  deriving DecidableEq, Repr

/-- `nodeReaderWriter` from `memory.go`; the `repo` back-reference is
handled by explicit state passing instead of a stored pointer. -/
structure nodeReaderWriter : Type where
  path : MemPath
  writing : Bool
  readCursor : Nat
  writeCursor : Nat
  deriving DecidableEq, Repr

/-- The copy loop of `nodeReaderWriter.Read`: `for ; (j < len(p)) &&
(n.readCursor < len(data)); n.readCursor++ { p[j] = data[n.readCursor] }`,
returning the bytes copied into `p`. `plen` is the remaining room in `p`
and `rc` the current read cursor. -/
def readLoop (data : Blob) : Nat → Nat → Blob
  | 0, _ => []
  | plen + 1, rc =>
    if hrc : rc < data.length then data.get ⟨rc, hrc⟩ :: readLoop data plen (rc + 1)
    else []

/-- `nodeReaderWriter.Read`: look the blob up at call time, fail with
`notFound` if absent, otherwise copy bytes from `readCursor` into the
buffer (of length `plen`), advance the cursor, and report `io.EOF`
(end of stream, the returned `Bool`) when the cursor has reached or
passed the blob length. -/
def nodeReaderWriter.Read (s : InMemoryRepository) (h : nodeReaderWriter) (plen : Nat) :
    Except RepoErr (Blob × Bool × nodeReaderWriter) :=
  match lookupData s.Data h.path with
  | none => .error .notFound
  | some data =>
    let copied := readLoop data plen h.readCursor
    let rc := h.readCursor + copied.length
    .ok (copied, decide (data.length ≤ rc), { h with readCursor := rc })

/-- `nodeReaderWriter.Close`: reset both cursors and the `writing` flag;
the repository is untouched and the returned error is `nil`. -/
def nodeReaderWriter.Close (s : InMemoryRepository) (h : nodeReaderWriter) :
    InMemoryRepository × nodeReaderWriter × Option RepoErr :=
  (s, { h with readCursor := 0, writeCursor := 0, writing := false }, none)

/-- The panicking slice store `l[i] = v`: `none` models the Go runtime
panic `index out of range` when `i ≥ len(l)`. -/
def setAt (l : Blob) (i : Nat) (v : Nat) : Option Blob :=
  if i < l.length then some (l.set i v) else none

/-- The copy loop of `nodeReaderWriter.Write`.  `K` is `len(n.repo.Data)`
— the number of keys of the map, constant throughout the loop — and
`plen` is `len(p)`.  Each iteration appends a zero byte to the blob iff
`K < writeCursor + plen` (the literal check of the source, which compares
the map's key count, not the blob's length) and then stores
`p[writeCursor-start]` at index `writeCursor`, panicking (`none`) when
that index is out of range.  Returns the final blob and write cursor. -/
def writeLoop (K plen : Nat) : List Nat → Nat → Blob → Option (Blob × Nat)
  | [], wc, blob => some (blob, wc)
  | b :: rest, wc, blob =>
    let blob1 := if K < wc + plen then blob ++ [0] else blob
    match setAt blob1 wc b with
    | none => none
    | some blob2 => writeLoop K plen rest (wc + 1) blob2

/-- `nodeReaderWriter.Write`: create the entry if absent, truncate it to
empty on the handle's first write (`writing` false) and set `writing`,
then run the copy loop.  On success returns `len(p)` (the count), the
updated repository and the updated handle; `none` models a panic inside
the copy loop. -/
def nodeReaderWriter.Write (s : InMemoryRepository) (h : nodeReaderWriter) (p : List Nat) :
    Option (Nat × InMemoryRepository × nodeReaderWriter) :=
  let d0 := if (lookupData s.Data h.path).isSome then s.Data else updateData s.Data h.path []
  let d1 := if h.writing = true then d0 else updateData d0 h.path []
  let writing1 := if h.writing = true then h.writing else true
  let K := d1.length
  let blob0 := (lookupData d1 h.path).getD []
  match writeLoop K p.length p h.writeCursor blob0 with
  | none => none
  | some (blob, wc) =>
    some (p.length, { s with Data := updateData d1 h.path blob },
      { h with writing := writing1, writeCursor := wc })

/-- `InMemoryRepository.Exists`: `invalidPath` on an empty path, otherwise
whether the map holds the key; the store is never modified. -/
def InMemoryRepository.Exists (m : InMemoryRepository) (u : URI) :
    Except RepoErr Bool × InMemoryRepository :=
  if u.path = [] then (.error .invalidPath, m)
  else (.ok (lookupData m.Data u.path).isSome, m)

/-- `InMemoryRepository.CanRead`: same checks as `Exists`. -/
def InMemoryRepository.CanRead (m : InMemoryRepository) (u : URI) :
    Except RepoErr Bool × InMemoryRepository :=
  if u.path = [] then (.error .invalidPath, m)
  else (.ok (lookupData m.Data u.path).isSome, m)

/-- `InMemoryRepository.CanWrite`: `invalidPath` on an empty path,
otherwise always `true`. -/
def InMemoryRepository.CanWrite (m : InMemoryRepository) (u : URI) :
    Except RepoErr Bool × InMemoryRepository :=
  if u.path = [] then (.error .invalidPath, m)
  else (.ok true, m)

/-- `InMemoryRepository.Reader`: `invalidPath` on an empty path,
`notFound` when no entry exists, otherwise a fresh read handle (Go zero
values for the cursors and flag). -/
def InMemoryRepository.Reader (m : InMemoryRepository) (u : URI) :
    Except RepoErr nodeReaderWriter × InMemoryRepository :=
  if u.path = [] then (.error .invalidPath, m)
  else
    match lookupData m.Data u.path with
    | none => (.error .notFound, m)
    | some _ => (.ok ⟨u.path, false, 0, 0⟩, m)

/-- `InMemoryRepository.Writer`: `invalidPath` on an empty path, otherwise
a fresh write handle — no existence check. -/
def InMemoryRepository.Writer (m : InMemoryRepository) (u : URI) :
    Except RepoErr nodeReaderWriter × InMemoryRepository :=
  if u.path = [] then (.error .invalidPath, m)
  else (.ok ⟨u.path, false, 0, 0⟩, m)

/-- `InMemoryRepository.Delete`: remove the entry when present, silently
do nothing when absent; the returned error is always `nil`. -/
def InMemoryRepository.Delete (m : InMemoryRepository) (u : URI) :
    Option RepoErr × InMemoryRepository :=
  if (lookupData m.Data u.path).isSome then
    (none, { m with Data := eraseData m.Data u.path })
  else (none, m)

/-- Go's `strings.Split(s, sep)` for a one-character separator: `n`
occurrences of `sep` yield `n + 1` pieces; the empty string yields one
empty piece. -/
def stringsSplit (sep : Char) : List Char → List (List Char)
  | [] => [[]]
  | c :: rest =>
    let r := stringsSplit sep rest
    if c = sep then [] :: r
    else
      match r with
      | [] => [[c]]
      | s :: ss => (c :: s) :: ss

/-- The `ncomp` computation of `InMemoryRepository.List`: the number of
pieces `strings.Split(p, "/")` yields, minus one when the key ends in a
separator (`p[len(p)-1] == '/'`; `List` panics before reaching this on an
empty key). -/
def componentCount (p : MemPath) : Nat :=
  (stringsSplit '/' p).length - (if p.getLast? = some '/' then 1 else 0)

/-- Lines 274-277 of `memory.go`: append a trailing separator to the path
unless it already ends in one (`prefix[len(prefix)-1] != '/'`; the index
panics on an empty path, which `InMemoryRepository.List` models
separately). -/
def normSlash (p : MemPath) : MemPath :=
  if p.getLast? = some '/' then p else p ++ ['/']

/-- The key loop of `InMemoryRepository.List`: keep every key that starts
with `pre` and whose `componentCount` equals `npre`, converting it to a
URI with the store's scheme. A key that is the empty string makes
`p[len(p)-1]` panic (`none`). -/
def listChildren (scheme pre : List Char) (npre : Nat) :
    List (MemPath × Blob) → Option (List URI)
  | [] => some []
  | (p, _) :: rest =>
    if p = [] then none
    else
      match listChildren scheme pre npre rest with
      | none => none
      | some l =>
        if pre.isPrefixOf p ∧ componentCount p = npre then
          some (parseSchemePath scheme p :: l)
        else some l

/-- `InMemoryRepository.List`: normalize the queried path to end in one
separator, then keep exactly the stored keys that extend it by one
component.  `none` models the panic of `prefix[len(prefix)-1]` on an
empty path (and of `p[len(p)-1]` on an empty stored key). -/
def InMemoryRepository.List (m : InMemoryRepository) (u : URI) : Option (List URI) :=
  if u.path = [] then none
  else
    listChildren m.scheme (normSlash u.path)
      ((stringsSplit '/' (normSlash u.path)).length) m.Data

/-- Follows the claim's words, not the source: normalize a path to end
with exactly one trailing separator — strip every trailing `'/'`, then
append a single one.  Compared against the source's `normSlash`, which
only appends a separator when the last character is not already one. -/
def specNormalizeOneSlash (p : MemPath) : MemPath :=
  (p.reverse.dropWhile (fun c => c == '/')).reverse ++ ['/']

/-!  Helper lemmas about the association-list map operations. -/

theorem lookupData_eq_none_of_forall_ne (l : List (MemPath × Blob)) (k : MemPath)
    (h : ∀ kv ∈ l, kv.1 ≠ k) : lookupData l k = none := by
  induction l with
  | nil => rfl
  | cons kv rest ih =>
    obtain ⟨k', v⟩ := kv
    have hne : k' ≠ k := h (k', v) (List.mem_cons_self _ _)
    simp only [lookupData, if_neg hne]
    exact ih fun x hx => h x (List.mem_cons_of_mem _ hx)

theorem lookupData_eraseData_self (l : List (MemPath × Blob)) (k : MemPath) :
    lookupData (eraseData l k) k = none := by
  induction l with
  | nil => rfl
  | cons kv rest ih =>
    obtain ⟨k', v⟩ := kv
    by_cases hk : k' = k
    · simpa [eraseData, hk] using ih
    · simpa [eraseData, lookupData, hk] using ih

theorem lookupData_eraseData_ne (l : List (MemPath × Blob)) (k q : MemPath)
    (hq : q ≠ k) : lookupData (eraseData l k) q = lookupData l q := by
  induction l with
  | nil => rfl
  | cons kv rest ih =>
    obtain ⟨k', v⟩ := kv
    by_cases hk : k' = k
    · subst hk
      have hne : ¬(k' = q) := fun hc => hq hc.symm
      simp [eraseData, lookupData, hne, ih]
    · simp only [eraseData, if_neg hk, lookupData]
      by_cases hq' : k' = q
      · simp [hq']
      · simp [hq', ih]

theorem readLoop_eq_drop_take (data : Blob) (plen : Nat) : ∀ rc : Nat,
    readLoop data plen rc = (data.drop rc).take plen := by
  induction plen with
  | zero => intro rc; simp [readLoop]
  | succ n ih =>
    intro rc
    by_cases hrc : rc < data.length
    · rw [readLoop, dif_pos hrc, ih (rc + 1), List.drop_eq_getElem_cons hrc,
        List.take_succ_cons]
      rfl
    · rw [readLoop, dif_neg hrc, List.drop_eq_nil_of_le (le_of_not_lt hrc)]
      simp

theorem listChildren_total (scheme pre : List Char) (npre : Nat)
    (data : List (MemPath × Blob)) (hk : ∀ kv ∈ data, kv.1 ≠ []) :
    ∃ l, listChildren scheme pre npre data = some l
      ∧ ∀ v : URI, v ∈ l ↔ ∃ kv, kv ∈ data
          ∧ (pre.isPrefixOf kv.1 ∧ componentCount kv.1 = npre)
          ∧ v = parseSchemePath scheme kv.1 := by
  induction data with
  | nil => exact ⟨[], rfl, by simp⟩
  | cons kv rest ih =>
    obtain ⟨p, b⟩ := kv
    obtain ⟨l, hl, hmem⟩ := ih fun x hx => hk x (List.mem_cons_of_mem _ hx)
    have hp : p ≠ [] := hk (p, b) (List.mem_cons_self _ _)
    by_cases hq : pre.isPrefixOf p ∧ componentCount p = npre
    · refine ⟨parseSchemePath scheme p :: l, ?_, ?_⟩
      · simp only [listChildren, if_neg hp, hl, if_pos hq]
      · intro v
        simp only [List.mem_cons, hmem]
        constructor
        · rintro (rfl | ⟨kv', hkv', hq', rfl⟩)
          · exact ⟨(p, b), Or.inl rfl, hq, rfl⟩
          · exact ⟨kv', Or.inr hkv', hq', rfl⟩
        · rintro ⟨kv', hkv'mem, hq', rfl⟩
          rcases hkv'mem with rfl | hmem'
          · exact Or.inl rfl
          · exact Or.inr ⟨kv', hmem', hq', rfl⟩
    · refine ⟨l, ?_, ?_⟩
      · simp only [listChildren, if_neg hp, hl, if_neg hq]
      · intro v
        rw [hmem]
        constructor
        · rintro ⟨kv', hkv', hq', rfl⟩
          exact ⟨kv', List.mem_cons_of_mem _ hkv', hq', rfl⟩
        · rintro ⟨kv', hkv'mem, hq', rfl⟩
          rcases List.mem_cons.mp hkv'mem with heq | hmem'
          · subst heq
            exact absurd hq' hq
          · exact ⟨kv', hmem', hq', rfl⟩

/-- C1: the claim states that every `Write` extends the bound blob (with
zero fill) so that the element store `Data[path][writeCursor]` in the
copy loop is always in bounds.  The code instead compares
`len(n.repo.Data)` — the number of stored paths — with
`writeCursor + len(p)`: with two stored paths, a fresh writer on `/a`
writing two bytes appends nothing (2 < 0 + 2 is false), and the store at
index 0 of the just-truncated empty blob is out of range — a runtime
panic, modelled as `none`. -/
theorem write_growth_check_out_of_bounds :
    nodeReaderWriter.Write ⟨[("/a".toList, []), ("/b".toList, [])], "mem".toList⟩
      ⟨"/a".toList, false, 0, 0⟩ [9, 9] = none := by
  rfl

/-- C2: the round-trip claim — write `b` to `p` with a fresh writer,
close, read back until end-of-stream, obtain `b` — fails on the code in
every store state where the growth-check defect bites: on a completely
fresh repository, a fresh writer on `/x` is handed out, and its first
`Write` of the single byte `[7]` panics (1 < 0 + 1 is false, so nothing
is appended and index 0 of the empty blob is stored to), so no round
trip can complete. -/
theorem roundtrip_first_write_panics :
    (InMemoryRepository.Writer ⟨[], "mem".toList⟩ ⟨"mem".toList, "/x".toList⟩).1
        = Except.ok ⟨"/x".toList, false, 0, 0⟩
    ∧ nodeReaderWriter.Write ⟨[], "mem".toList⟩ ⟨"/x".toList, false, 0, 0⟩ [7] = none :=
  ⟨rfl, rfl⟩

/-- C3: the claim promises that writing `b1` then `b2` on one handle with
no close between stores `b1 ++ b2`.  With `b1 = []` the first write
truncates the entry and sets the `writing` flag as claimed, but the
second write of `b2 = [5]` panics: the growth check compares the store's
key count (1) with `writeCursor + len(p) = 0 + 1`, appends nothing, and
stores out of range on the empty blob — the final content is never
`b1 ++ b2 = [5]`. -/
theorem second_write_on_same_handle_panics :
    nodeReaderWriter.Write ⟨[], "mem".toList⟩ ⟨"/x".toList, false, 0, 0⟩ []
        = some (0, ⟨[("/x".toList, [])], "mem".toList⟩, ⟨"/x".toList, true, 0, 0⟩)
    ∧ nodeReaderWriter.Write ⟨[("/x".toList, [])], "mem".toList⟩
        ⟨"/x".toList, true, 0, 0⟩ [5] = none :=
  ⟨rfl, rfl⟩

/-- C4 counterexample: for the queried path `/a//` the claim's prefix —
the path normalized to end with exactly one trailing `'/'`, i.e. `/a/` —
is a prefix of the stored key `/a/b`, and the key's component count (3)
equals that prefix's component count (3), so the claim requires `/a/b`
in the listing; the code keeps the path verbatim whenever it already
ends in a separator, compares against the prefix `/a//`, and returns the
empty listing. -/
theorem list_double_slash_counterexample :
    InMemoryRepository.List ⟨[("/a/b".toList, [])], "mem".toList⟩
        ⟨"mem".toList, "/a//".toList⟩ = some []
    ∧ specNormalizeOneSlash "/a//".toList = "/a/".toList
    ∧ ("/a/".toList).isPrefixOf "/a/b".toList = true
    ∧ componentCount "/a/b".toList = (stringsSplit '/' "/a/".toList).length := by
  refine ⟨by decide, by decide, by decide, by decide⟩

/-- C4 as amended: for every store whose keys are non-empty and every URI
with a non-empty path, `List` succeeds and returns exactly the URIs
(store scheme + key) of the stored keys that start with the prefix
obtained by appending a single `'/'` to the queried path only when it
does not already end in `'/'`, and whose component count (discounting a
single trailing separator if present) equals the number of components
the prefix splits into. -/
theorem list_exactly_immediate_children (m : InMemoryRepository) (u : URI)
    (hu : u.path ≠ []) (hk : ∀ kv ∈ m.Data, kv.1 ≠ []) :
    ∃ l, InMemoryRepository.List m u = some l
      ∧ ∀ v : URI, v ∈ l ↔ ∃ kv, kv ∈ m.Data
          ∧ ((normSlash u.path).isPrefixOf kv.1
              ∧ componentCount kv.1 = (stringsSplit '/' (normSlash u.path)).length)
          ∧ v = parseSchemePath m.scheme kv.1 := by
  have h := listChildren_total m.scheme (normSlash u.path)
      ((stringsSplit '/' (normSlash u.path)).length) m.Data hk
  simpa [InMemoryRepository.List, hu] using h

/-- C4 witness: the claim's own example — with entries `/a/b`, `/a/b/c`
and `/a/bc`, listing `/a` yields exactly `/a/b` and `/a/bc`. -/
theorem list_exactly_immediate_children_witness :
    (∃ l, InMemoryRepository.List
        ⟨[("/a/b".toList, []), ("/a/b/c".toList, []), ("/a/bc".toList, [])], "mem".toList⟩
        ⟨"mem".toList, "/a".toList⟩ = some l
      ∧ ∀ v : URI, v ∈ l ↔ ∃ kv,
          kv ∈ [("/a/b".toList, ([] : Blob)), ("/a/b/c".toList, []), ("/a/bc".toList, [])]
          ∧ ((normSlash "/a".toList).isPrefixOf kv.1
              ∧ componentCount kv.1 = (stringsSplit '/' (normSlash "/a".toList)).length)
          ∧ v = parseSchemePath "mem".toList kv.1)
    ∧ InMemoryRepository.List
        ⟨[("/a/b".toList, []), ("/a/b/c".toList, []), ("/a/bc".toList, [])], "mem".toList⟩
        ⟨"mem".toList, "/a".toList⟩
        = some [⟨"mem".toList, "/a/b".toList⟩, ⟨"mem".toList, "/a/bc".toList⟩] :=
  ⟨list_exactly_immediate_children _ _ (by decide) (by decide), by decide⟩

/-- C5: `Read` looks the blob up at call time and fails with `notFound`,
copying nothing, when no entry exists for the handle's path; otherwise
it copies `min(len(buffer), blobLength - readCursor)` bytes starting at
`readCursor`, advances `readCursor` by exactly that count, and signals
end-of-stream precisely when the advanced cursor reaches or exceeds the
blob length — on the same call that reaches the end, and again with zero
bytes on every later call. -/
theorem read_contract (s : InMemoryRepository) (h : nodeReaderWriter) (plen : Nat) :
    (lookupData s.Data h.path = none →
      nodeReaderWriter.Read s h plen = .error .notFound)
    ∧ ∀ data, lookupData s.Data h.path = some data →
        ∃ copied eof h2,
          nodeReaderWriter.Read s h plen = .ok (copied, eof, h2)
          ∧ copied = (data.drop h.readCursor).take plen
          ∧ copied.length = min plen (data.length - h.readCursor)
          ∧ h2.readCursor = h.readCursor + copied.length
          ∧ h2.path = h.path ∧ h2.writing = h.writing ∧ h2.writeCursor = h.writeCursor
          ∧ (eof = true ↔ data.length ≤ h2.readCursor)
          ∧ (data.length ≤ h.readCursor → copied = [] ∧ eof = true) := by
  constructor
  · intro hnone
    simp [nodeReaderWriter.Read, hnone]
  · intro data hdata
    refine ⟨readLoop data plen h.readCursor,
      decide (data.length ≤ h.readCursor + (readLoop data plen h.readCursor).length),
      { h with readCursor := h.readCursor + (readLoop data plen h.readCursor).length },
      ?_, ?_, ?_, rfl, rfl, rfl, rfl, ?_, ?_⟩
    · simp [nodeReaderWriter.Read, hdata]
    · exact readLoop_eq_drop_take data plen h.readCursor
    · rw [readLoop_eq_drop_take]
      simp [List.length_take, List.length_drop]
    · exact decide_eq_true_iff
    · intro hend
      have hdrop : data.drop h.readCursor = [] := List.drop_eq_nil_of_le hend
      constructor
      · rw [readLoop_eq_drop_take, hdrop, List.take_nil]
      · rw [readLoop_eq_drop_take, hdrop]
        simp [hend]

/-- C5 witness: on the store `{/x ↦ [1, 2]}` a fresh handle reading into
a 5-byte buffer copies `[1, 2]`, advances the cursor to 2 and signals
end-of-stream on that same call; on an empty store the read fails with
`notFound`. -/
theorem read_contract_witness :
    (nodeReaderWriter.Read ⟨[], "mem".toList⟩ ⟨"/x".toList, false, 0, 0⟩ 3
        = .error .notFound)
    ∧ ∃ copied eof h2,
        nodeReaderWriter.Read ⟨[("/x".toList, [1, 2])], "mem".toList⟩
            ⟨"/x".toList, false, 0, 0⟩ 5 = .ok (copied, eof, h2)
        ∧ copied = (([1, 2] : Blob).drop 0).take 5
        ∧ copied.length = min 5 (([1, 2] : Blob).length - 0)
        ∧ h2.readCursor = 0 + copied.length
        ∧ h2.path = "/x".toList ∧ h2.writing = false ∧ h2.writeCursor = 0
        ∧ (eof = true ↔ ([1, 2] : Blob).length ≤ h2.readCursor)
        ∧ (([1, 2] : Blob).length ≤ 0 → copied = [] ∧ eof = true) :=
  ⟨(read_contract ⟨[], "mem".toList⟩ ⟨"/x".toList, false, 0, 0⟩ 3).1 rfl,
   (read_contract ⟨[("/x".toList, [1, 2])], "mem".toList⟩
      ⟨"/x".toList, false, 0, 0⟩ 5).2 [1, 2] rfl⟩

/-- C6: `Exists`, `CanRead`, `CanWrite`, `Reader` and `Writer` each fail
with `invalidPath` on a URI with an empty path, and the failing call
leaves the store — in particular its `Data` mapping — unchanged (each
result pairs the error with the untouched store). -/
theorem empty_path_rejected (m : InMemoryRepository) (u : URI) (hu : u.path = []) :
    InMemoryRepository.Exists m u = (.error .invalidPath, m)
    ∧ InMemoryRepository.CanRead m u = (.error .invalidPath, m)
    ∧ InMemoryRepository.CanWrite m u = (.error .invalidPath, m)
    ∧ InMemoryRepository.Reader m u = (.error .invalidPath, m)
    ∧ InMemoryRepository.Writer m u = (.error .invalidPath, m) := by
  refine ⟨?_, ?_, ?_, ?_, ?_⟩ <;>
    simp [InMemoryRepository.Exists, InMemoryRepository.CanRead,
      InMemoryRepository.CanWrite, InMemoryRepository.Reader,
      InMemoryRepository.Writer, hu]

/-- C6 witness: the five rejections on a concrete one-entry store and a
URI with an empty path. -/
theorem empty_path_rejected_witness :
    InMemoryRepository.Exists ⟨[("/a".toList, [3])], "mem".toList⟩ ⟨"mem".toList, []⟩
        = (.error .invalidPath, ⟨[("/a".toList, [3])], "mem".toList⟩)
    ∧ InMemoryRepository.CanRead ⟨[("/a".toList, [3])], "mem".toList⟩ ⟨"mem".toList, []⟩
        = (.error .invalidPath, ⟨[("/a".toList, [3])], "mem".toList⟩)
    ∧ InMemoryRepository.CanWrite ⟨[("/a".toList, [3])], "mem".toList⟩ ⟨"mem".toList, []⟩
        = (.error .invalidPath, ⟨[("/a".toList, [3])], "mem".toList⟩)
    ∧ InMemoryRepository.Reader ⟨[("/a".toList, [3])], "mem".toList⟩ ⟨"mem".toList, []⟩
        = (.error .invalidPath, ⟨[("/a".toList, [3])], "mem".toList⟩)
    ∧ InMemoryRepository.Writer ⟨[("/a".toList, [3])], "mem".toList⟩ ⟨"mem".toList, []⟩
        = (.error .invalidPath, ⟨[("/a".toList, [3])], "mem".toList⟩) :=
  empty_path_rejected ⟨[("/a".toList, [3])], "mem".toList⟩ ⟨"mem".toList, []⟩ rfl

/-- C7: `Delete` returns no error; after the call the entry for the path
is gone (and was never created when absent — deleting an absent path
returns the store verbatim), every other path's entry is untouched, and
deleting again afterwards is again a silent no-op on an unchanged
store. -/
theorem delete_contract (m : InMemoryRepository) (u : URI) :
    (InMemoryRepository.Delete m u).1 = none
    ∧ lookupData (InMemoryRepository.Delete m u).2.Data u.path = none
    ∧ (∀ q, q ≠ u.path →
        lookupData (InMemoryRepository.Delete m u).2.Data q = lookupData m.Data q)
    ∧ (lookupData m.Data u.path = none → (InMemoryRepository.Delete m u).2 = m)
    ∧ InMemoryRepository.Delete (InMemoryRepository.Delete m u).2 u
        = (none, (InMemoryRepository.Delete m u).2) := by
  by_cases hc : (lookupData m.Data u.path).isSome = true
  · have hD : InMemoryRepository.Delete m u
        = (none, { m with Data := eraseData m.Data u.path }) := by
      simp only [InMemoryRepository.Delete, if_pos hc]
    rw [hD]
    refine ⟨rfl, lookupData_eraseData_self _ _,
      fun q hq => lookupData_eraseData_ne _ _ _ hq, ?_, ?_⟩
    · intro hnone
      rw [hnone] at hc
      simp at hc
    · simp [InMemoryRepository.Delete, lookupData_eraseData_self]
  · have hc' : lookupData m.Data u.path = none := Option.not_isSome_iff_eq_none.mp hc
    have hD : InMemoryRepository.Delete m u = (none, m) := by
      simp only [InMemoryRepository.Delete, if_neg hc]
    rw [hD]
    exact ⟨rfl, hc', fun q hq => rfl, fun _ => rfl, by simp [InMemoryRepository.Delete, hc']⟩

/-- C7 witness: deleting `/a` from `{/a ↦ [1], /b ↦ [2]}` reports no
error, removes `/a`, keeps `/b`, and a second delete is a silent no-op;
deleting the absent `/z` from the same store returns it verbatim. -/
theorem delete_contract_witness :
    (InMemoryRepository.Delete ⟨[("/a".toList, [1]), ("/b".toList, [2])], "mem".toList⟩
        ⟨"mem".toList, "/a".toList⟩).1 = none
    ∧ lookupData (InMemoryRepository.Delete
        ⟨[("/a".toList, [1]), ("/b".toList, [2])], "mem".toList⟩
        ⟨"mem".toList, "/a".toList⟩).2.Data "/a".toList = none
    ∧ lookupData (InMemoryRepository.Delete
        ⟨[("/a".toList, [1]), ("/b".toList, [2])], "mem".toList⟩
        ⟨"mem".toList, "/a".toList⟩).2.Data "/b".toList
        = lookupData [("/a".toList, [1]), ("/b".toList, [2])] "/b".toList
    ∧ InMemoryRepository.Delete
        (InMemoryRepository.Delete ⟨[("/a".toList, [1]), ("/b".toList, [2])], "mem".toList⟩
          ⟨"mem".toList, "/a".toList⟩).2 ⟨"mem".toList, "/a".toList⟩
        = (none, (InMemoryRepository.Delete
            ⟨[("/a".toList, [1]), ("/b".toList, [2])], "mem".toList⟩
            ⟨"mem".toList, "/a".toList⟩).2)
    ∧ (InMemoryRepository.Delete ⟨[("/a".toList, [1]), ("/b".toList, [2])], "mem".toList⟩
        ⟨"mem".toList, "/z".toList⟩).2
        = ⟨[("/a".toList, [1]), ("/b".toList, [2])], "mem".toList⟩ :=
  ⟨(delete_contract ⟨[("/a".toList, [1]), ("/b".toList, [2])], "mem".toList⟩
      ⟨"mem".toList, "/a".toList⟩).1,
   (delete_contract ⟨[("/a".toList, [1]), ("/b".toList, [2])], "mem".toList⟩
      ⟨"mem".toList, "/a".toList⟩).2.1,
   (delete_contract ⟨[("/a".toList, [1]), ("/b".toList, [2])], "mem".toList⟩
      ⟨"mem".toList, "/a".toList⟩).2.2.1 "/b".toList (by decide),
   (delete_contract ⟨[("/a".toList, [1]), ("/b".toList, [2])], "mem".toList⟩
      ⟨"mem".toList, "/a".toList⟩).2.2.2.2,
   (delete_contract ⟨[("/a".toList, [1]), ("/b".toList, [2])], "mem".toList⟩
      ⟨"mem".toList, "/z".toList⟩).2.2.2.1 rfl⟩

/-- C8: `Close` returns the store untouched and the handle with
`readCursor`, `writeCursor` and the `writing` flag reset to their
initial values, keeping its path binding, and reports no error; closing
the already-closed handle returns exactly the same closed handle again
with no error. -/
theorem close_resets_and_is_idempotent (s : InMemoryRepository) (h : nodeReaderWriter) :
    nodeReaderWriter.Close s h
        = (s, { path := h.path, writing := false, readCursor := 0, writeCursor := 0 }, none)
    ∧ nodeReaderWriter.Close s
        { path := h.path, writing := false, readCursor := 0, writeCursor := 0 }
        = (s, { path := h.path, writing := false, readCursor := 0, writeCursor := 0 }, none) :=
  ⟨rfl, rfl⟩

/-- C9: `List` on a URI with an empty path is a panic (the unguarded
`prefix[len(prefix)-1]` index on the empty string, modelled as `none`),
not an `invalidPath` error — in contrast with `Exists` and the other
operations, which return that error on the same URI. -/
theorem list_empty_path_is_panic (m : InMemoryRepository) (u : URI) (hu : u.path = []) :
    InMemoryRepository.List m u = none
    ∧ (InMemoryRepository.Exists m u).1 = .error .invalidPath := by
  constructor
  · simp [InMemoryRepository.List, hu]
  · simp [InMemoryRepository.Exists, hu]

/-- C9 witness: the empty-path panic of `List` on a concrete one-entry
store, next to the `invalidPath` error of `Exists`. -/
theorem list_empty_path_is_panic_witness :
    InMemoryRepository.List ⟨[("/a".toList, [])], "mem".toList⟩ ⟨"mem".toList, []⟩ = none
    ∧ (InMemoryRepository.Exists ⟨[("/a".toList, [])], "mem".toList⟩
        ⟨"mem".toList, []⟩).1 = .error .invalidPath :=
  list_empty_path_is_panic ⟨[("/a".toList, [])], "mem".toList⟩ ⟨"mem".toList, []⟩ rfl

/-- C10: `Delete` performs no path validation: on a URI with an empty
path it returns no error (never `invalidPath`), and — as the empty
string is not a key of a store whose keys are non-empty normalized
paths — the `Data` mapping is returned unchanged. -/
theorem delete_skips_path_validation (m : InMemoryRepository) (u : URI)
    (hu : u.path = []) (hk : ∀ kv ∈ m.Data, kv.1 ≠ []) :
    (InMemoryRepository.Delete m u).1 = none
    ∧ (InMemoryRepository.Delete m u).2 = m := by
  have hnone : lookupData m.Data u.path = none := by
    rw [hu]
    exact lookupData_eq_none_of_forall_ne _ _ hk
  constructor <;> simp [InMemoryRepository.Delete, hnone]

/-- C10 witness: deleting the empty path from `{/a ↦ [1]}` returns no
error and the store verbatim. -/
theorem delete_skips_path_validation_witness :
    (InMemoryRepository.Delete ⟨[("/a".toList, [1])], "mem".toList⟩
        ⟨"mem".toList, []⟩).1 = none
    ∧ (InMemoryRepository.Delete ⟨[("/a".toList, [1])], "mem".toList⟩
        ⟨"mem".toList, []⟩).2 = ⟨[("/a".toList, [1])], "mem".toList⟩ :=
  delete_skips_path_validation ⟨[("/a".toList, [1])], "mem".toList⟩ ⟨"mem".toList, []⟩
    rfl (by decide)
